import Mathlib

/-!
Verification of the motion-search video complexity analyzer.

This file gives a shallow embedding of the parts of the analyzer that the
specification constrains:

* the SIMD moment kernels (`asm/moments.highway.cpp`): variance and
  bidirectional MSE, modelled with the exact lane semantics of the source
  (16-bit lane multiplication wraps modulo 2^16, `int` arithmetic wraps
  modulo 2^32 in two's complement, C `/` truncates toward zero);
* the normalization helpers (`ComplexityNormalization.cpp`), with `double`
  values modelled as exact rationals (the guard structure, not floating-point
  rounding, is what the claims constrain);
* the result aggregation (`DataConverter.cpp`): `convertFrame` and
  `computeGOPData`;
* the record reorder buffer (`ComplexityAnalyzer::add_info_enhanced`) and the
  GOP/subGOP scheduling loop (`ComplexityAnalyzer::analyze`), modelled as an
  explicit state machine over an abstract frame source of `n` frames.
-/

namespace MotionSearch

/-! ## Machine-arithmetic helpers

The highway kernels compute in fixed-width lanes.  `wrap16` is the value of a
two's-complement `int16_t` holding the low 16 bits of an integer; `wrap32`
likewise for `int32_t`/`int`.  C `/` on `int` truncates toward zero, which is
`Int.tdiv`; an arithmetic right shift of an `int16_t` lane is floor division.
-/

/-- Two's-complement wrap-around of an integer to the `int16_t` range. -/
def wrap16 (x : ℤ) : ℤ := (x + 32768) % 65536 - 32768

/-- Two's-complement wrap-around of an integer to the `int32_t` range. -/
def wrap32 (x : ℤ) : ℤ := (x + 2147483648) % 4294967296 - 2147483648

/-! ## Variance kernel (`fast_variance16_highway`, moments.highway.cpp 123-161)

The 16-wide variance kernel accumulates the pixel sum in `uint16_t` lanes and
reduces to a `uint16_t` (so the sum is taken modulo 2^16), accumulates the sum
of squares in `uint32_t` lanes (cast to `int` on reduction), and then computes
`sum2 - (sum * sum + (temp >> 1)) / temp` with `temp = block_height << 4`, all
in C `int` arithmetic.  A block is a list of rows of 8-bit samples; the widths
16/8/4 differ only in the vector width, not in the per-pixel arithmetic (for
width `w` the source uses `temp = block_height << log2 w`, i.e. `w * bh`).
-/

/-- Pixel sum of a block, as reduced by the `uint16_t` lane accumulator:
the mathematical sum taken modulo 2^16. -/
def varianceSumU16 (block : List (List ℕ)) : ℤ :=
  ((block.map fun row => (row.map fun x => (x : ℤ)).sum).sum) % 65536

/-- Sum of squared pixels of a block, reduced from `uint32_t` lanes and cast
to `int`. -/
def varianceSumSq (block : List (List ℕ)) : ℤ :=
  wrap32 ((block.map fun row => (row.map fun x => (x : ℤ) * x).sum).sum)

/-- `fast_variance16_highway` for a block of width 16 and height
`block_height`: `sum2 - (sum * sum + (temp >> 1)) / temp` in `int`
arithmetic (`sum * sum` wraps modulo 2^32; `/` truncates toward zero). -/
def fast_variance16_highway (block : List (List ℕ)) (block_height : ℕ) : ℤ :=
  let sum := varianceSumU16 block
  let sum2 := varianceSumSq block
  let temp : ℤ := 16 * block_height
  sum2 - Int.tdiv (wrap32 (wrap32 (sum * sum) + Int.tdiv temp 2)) temp

/-- The variance formula of the specification, in exact integer arithmetic:
`Σx² − (Σx·Σx + (bw·bh)/2) / (bw·bh)` over a `bw × bh` block (floor
division of non-negative integers). -/
def variance_spec (block : List (List ℕ)) (bw bh : ℕ) : ℤ :=
  let s : ℕ := (block.map List.sum).sum
  let s2 : ℕ := (block.map fun row => (row.map fun x => x * x).sum).sum
  (s2 : ℤ) - ((s * s + (bw * bh) / 2) / (bw * bh) : ℕ)

/-! ## Bidirectional MSE kernel (`fast_bidir_mse16_highway`, 415-495)

The interpolation `(ref1 * td_y + ref2 * td_x + 16384) >> 15` is computed in
`int16_t` lanes: `hn::Mul` keeps the low 16 bits of each product, `hn::Add`
wraps, and `hn::ShiftRight<15>` is an arithmetic shift of the 16-bit lane
(floor division by 2^15, hence always −1 or 0).  The difference against the
current block is then promoted to 32 bits, squared, and summed.  Widths 16/8/4
share this per-pixel arithmetic.
-/

/-- One interpolated prediction sample as computed by the `int16_t` lanes of
`fast_bidir_mse16_highway` (lines 441-455). -/
def bidirPredHighway (tdY tdX r1 r2 : ℤ) : ℤ :=
  Int.fdiv (wrap16 (wrap16 (wrap16 (r1 * tdY) + wrap16 (r2 * tdX)) + 16384)) 32768

/-- `fast_bidir_mse16_highway`: sum over the block of the squared difference
between the 16-bit-lane interpolation and the current sample, reduced in
`int32_t` lanes. -/
def fast_bidir_mse_highway (tdY tdX : ℤ)
    (cur ref1 ref2 : List (List ℕ)) : ℤ :=
  wrap32 (((cur.zip (ref1.zip ref2)).map fun rw =>
    ((rw.1.zip (rw.2.1.zip rw.2.2)).map fun p =>
      let d := wrap16 (bidirPredHighway tdY tdX p.2.1 p.2.2 - (p.1 : ℤ))
      d * d).sum).sum)

/-- The bidirectional MSE of the specification, in exact integer arithmetic:
`pred = (ref1·td_y + ref2·td_x + 16384) >> 15`, result `Σ(pred − cur)²`. -/
def bidir_mse_spec (tdY tdX : ℤ) (cur ref1 ref2 : List (List ℕ)) : ℤ :=
  ((cur.zip (ref1.zip ref2)).map fun rw =>
    ((rw.1.zip (rw.2.1.zip rw.2.2)).map fun p =>
      let pred := ((p.2.1 : ℤ) * tdY + (p.2.2 : ℤ) * tdX + 16384) / 32768
      (pred - (p.1 : ℤ)) * (pred - (p.1 : ℤ))).sum).sum

/-! ## Normalization helpers (`ComplexityNormalization.cpp`)

`double` values are modelled as exact rationals; the claims about these
functions concern guards and linear arithmetic, not floating-point rounding.
-/

/-- `complexity::computeBitsPerPixel` (ComplexityNormalization.cpp 60-65):
returns 0.0 when `num_pixels <= 0`, otherwise the quotient. -/
def computeBitsPerPixel (estimated_bits num_pixels : ℤ) : ℚ :=
  if num_pixels ≤ 0 then 0
  else (estimated_bits : ℚ) / (num_pixels : ℚ)

/-! ## Result aggregation (`DataConverter.cpp`, `OutputData.h`)

`complexity_info` models the fields of `complexity_info_t` that
`DataConverter` reads; `FrameData` and `GOPData` model the fields of the
output structures that the aggregation claims constrain.  `double`
values are modelled as exact rationals.
-/

/-- `FrameType` (OutputData.h 19). -/
inductive FrameType where
  | I | P | B | UNKNOWN
deriving DecidableEq, Repr, Inhabited

/-- `charToFrameType` (OutputData.h 40-51). -/
def charToFrameType (c : Char) : FrameType :=
  if c = 'I' then .I else if c = 'P' then .P else if c = 'B' then .B
  else .UNKNOWN

/-- The fields of `complexity_info_t` (ComplexityAnalyzer.h 21-41) read by
`DataConverter::convertFrame`, together with `unified_score_v2`. -/
structure complexity_info where
  picNum : ℤ
  picType : Char
  count_I : ℤ
  count_P : ℤ
  count_B : ℤ
  bits : ℤ
  error : ℤ
  unified_score_v2 : ℚ
deriving DecidableEq, Repr

/-- The fields of `FrameData` (OutputData.h 96-119) that the aggregation
claims constrain; `unified_complexity` is the field of the nested
`ComplexityMetrics`. -/
structure FrameData where
  frame_num : ℤ := 0
  type : FrameType := .UNKNOWN
  estimated_bits : ℤ := 0
  unified_complexity : ℚ := 0
deriving DecidableEq, Repr, Inhabited

/-- `GOPData` (OutputData.h 124-136). -/
structure GOPData where
  gop_num : ℤ := 0
  start_frame : ℤ := 0
  end_frame : ℤ := 0
  total_bits : ℤ := 0
  avg_complexity : ℚ := 0
  i_frame_count : ℤ := 0
  p_frame_count : ℤ := 0
  b_frame_count : ℤ := 0
  frames : List FrameData := []
deriving DecidableEq, Repr, Inhabited

/-- `DataConverter::convertFrame` (DataConverter.cpp 14-71), restricted to
the modelled fields.  Note that `unified_complexity` is computed as the
average of the three heuristic complexities derived from block counts and
bits; `info->unified_score_v2` is not read. -/
def convertFrame (info : complexity_info) (width height : ℤ) : FrameData :=
  let total_blocks := info.count_I + info.count_P + info.count_B
  let num_pixels := width * height
  let spatial : ℚ := if 0 < total_blocks then (info.count_I : ℚ) / (total_blocks : ℚ) else 0
  let motion : ℚ := if 0 < total_blocks then ((info.count_P + info.count_B : ℤ) : ℚ) / (total_blocks : ℚ) else 0
  let residual : ℚ := if 0 < num_pixels then (info.bits : ℚ) / (num_pixels : ℚ) else 0
  { frame_num := info.picNum
    type := charToFrameType info.picType
    estimated_bits := info.bits
    unified_complexity := (spatial + motion + residual) / 3 }

/-- The GOP record the source builds for the frame range
`[startIdx, stopIdx)` of `frames` (DataConverter.cpp 92-117 and 128-150):
totals accumulated over the member frames, `start_frame`/`end_frame` read
from `frames[current_gop_start]` and `frames[i-1]`, and `avg_complexity`
divided by the member count when it is positive. -/
def mkGOP (frames : List FrameData) (startIdx stopIdx : ℕ) (num : ℤ) : GOPData :=
  let seg := (frames.drop startIdx).take (stopIdx - startIdx)
  let count := stopIdx - startIdx
  { gop_num := num
    start_frame := (frames.getD startIdx default).frame_num
    end_frame := (frames.getD (stopIdx - 1) default).frame_num
    total_bits := (seg.map FrameData.estimated_bits).sum
    avg_complexity :=
      if 0 < count then (seg.map FrameData.unified_complexity).sum / (count : ℚ)
      else (seg.map FrameData.unified_complexity).sum
    i_frame_count := seg.countP (fun f => f.type = FrameType.I)
    p_frame_count := seg.countP (fun f => f.type = FrameType.P)
    b_frame_count := seg.countP (fun f => f.type = FrameType.B)
    frames := seg }

/-- The loop body of `DataConverter::computeGOPData` (DataConverter.cpp
83-152): walk the frame list; at every I-frame with index `i > 0` close the
GOP `[curStart, i)` and open a new one at `i`; after the loop close the final
GOP `[curStart, frames.length)`.  (The `gop_size_reached` flag computed by
the source is never used, so `gop_size` does not influence segmentation.) -/
def gopAux (frames : List FrameData) : List FrameData → ℕ → ℕ → ℤ →
    List GOPData → List GOPData
  | [], _, curStart, num, acc => acc ++ [mkGOP frames curStart frames.length num]
  | f :: rs, i, curStart, num, acc =>
    if f.type = FrameType.I ∧ 0 < i then
      gopAux frames rs (i + 1) i (num + 1) (acc ++ [mkGOP frames curStart i num])
    else
      gopAux frames rs (i + 1) curStart num acc

/-- `DataConverter::computeGOPData` (DataConverter.cpp 73-153). -/
def computeGOPData (frames : List FrameData) : List GOPData :=
  if frames = [] then [] else gopAux frames frames 0 0 0 []

/-- The frame-conversion and GOP-aggregation core of
`DataConverter::convert` (DataConverter.cpp 155-182): convert every record,
then compute the GOP data. -/
def convertGops (info_vec : List complexity_info) (width height : ℤ) :
    List GOPData :=
  computeGOPData (info_vec.map fun info => convertFrame info width height)

/-! ## The analyzer record buffer (`ComplexityAnalyzer.cpp` 101-134, 290-291)

`PicRecord` is the projection of `complexity_info_t` to the fields the
scheduling claims constrain: `picNum`, `picType` and the weighted `bits`.
The remaining fields play no role in the routing or ordering of records.
`route` is the reorder logic at the end of `add_info_enhanced` (lines
127-133): a B record is appended to `m_info`; an I or P record is held in
`m_pReorderedInfo` after appending the previously held record.  `flushInfo`
is the final flush of `analyze` (lines 290-291) composed with `getInfo`.
-/

/-- Projection of `complexity_info_t` to the scheduling-relevant fields. -/
structure PicRecord where
  picNum : ℕ
  picType : Char
  bits : ℕ
deriving DecidableEq, Repr

/-- The two record containers of the analyzer: `m_info` and
`m_pReorderedInfo`. -/
structure ReorderState where
  info : List PicRecord
  pending : Option PicRecord
deriving DecidableEq, Repr

/-- Lines 127-133 of `add_info_enhanced`: route a freshly built record. -/
def route (st : ReorderState) (i : PicRecord) : ReorderState :=
  if i.picType = 'I' ∨ i.picType = 'P' then
    { info := st.info ++ st.pending.toList, pending := some i }
  else
    { info := st.info ++ [i], pending := st.pending }

/-- The record list visible after the final flush of `analyze`
(lines 290-291): `m_info` followed by the held record, if any. -/
def flushInfo (st : ReorderState) : List PicRecord :=
  st.info ++ st.pending.toList

/-- `add_info_enhanced` (lines 101-134): build the record (`picNum = num-1`,
converting the 1-based reader count to 0-based display numbering) and route
it through the reorder buffer. -/
def add_info_enhanced (st : ReorderState) (num : ℕ) (p : Char) (bits : ℕ) :
    ReorderState :=
  route st { picNum := num - 1, picType := p, bits := bits }

/-! ## The GOP/subGOP scheduling loop (`ComplexityAnalyzer::analyze`, 248-294)

The model abstracts the frame source to its length `n`: reading frame number
`cnt` (0-based) succeeds exactly when `cnt < n`, and otherwise throws
`EOFException`, which `analyze` catches at the top level, terminating the
loop (the `readPicture` of `FFmpegSequenceReader.cpp` 238-247 throws on a
read past the end; the `eof()` flag is set lazily, so the loop condition
`!m_pReader->eof()` in EOF mode never stops the loop before a read throws,
and the record output is the same for any eof-flag timing).

Pixel data is abstracted: per-picture raw bit sums (`m_pPmv->bits()` after
the search over the target picture) are supplied by an oracle
`rawBits : Char → ℕ → ℕ` indexed by picture type and 0-based display index.
Frame slots are represented by the display indices of the frames they hold,
so the slot swap at line 269 is the identity on the modelled state; the
`pos()`-difference in the B-record numbering (line 239) is resolved to the
display index of the B picture.

Modelled from the spec: the constants `I_FRAME_BIT_WEIGHT = 282`,
`P_FRAME_BIT_WEIGHT = 269`, `B_FRAME_BIT_WEIGHT = 256` are defined in
`common.h`, which is not in the tree; the values come from §4.4.4 of the
specification and from the ratio comments at ComplexityAnalyzer.cpp
142-144, 179-181 and 217-219.
-/

/-- The per-picture-type bit weight (`common.h`, see the module comment). -/
def frameBitWeight (p : Char) : ℕ :=
  if p = 'I' then 282 else if p = 'P' then 269 else 256

/-- `bits = (WEIGHT * bits + 128) >> 8` as applied in
`process_i_picture` / `process_p_picture` / `process_b_picture`
(ComplexityAnalyzer.cpp 144, 181, 219). -/
def weightedBits (w raw : ℕ) : ℕ := (w * raw + 128) / 256

/-- The loop state of `analyze`: the reader count, the intra-GOP frame
counter `td`, and the record buffer. -/
structure AnalyzerState where
  cnt : ℕ
  td : ℕ
  rs : ReorderState
deriving DecidableEq, Repr

/-- The read-ahead, P-emission and B-emission of one `analyze` iteration
(ComplexityAnalyzer.cpp 272-284).  `m` is the number of read-ahead
iterations `min (gop_size - 1 - td, subgop_size)`.  If the source holds all
`m` frames the P record (target = last filled slot, reader count `cnt + m`)
and the B records (slots `1 … m-1`, display indices `cnt … cnt+m-2`) are
emitted; otherwise a read throws `EOFException` and `analyze` terminates
with the state as it stood (`Sum.inr`). -/
def readAheadEmit (rawBits : Char → ℕ → ℕ) (n g s : ℕ) (st : AnalyzerState) :
    AnalyzerState ⊕ AnalyzerState :=
  let m := min (g - 1 - st.td) s
  if st.cnt + m ≤ n then
    let c := st.cnt
    let rs1 := add_info_enhanced st.rs (c + m) 'P'
      (weightedBits (frameBitWeight 'P') (rawBits 'P' (c + m - 1)))
    let rs2 := (List.range (m - 1)).foldl (fun rs t =>
      add_info_enhanced rs (c + t + 1) 'B'
        (weightedBits (frameBitWeight 'B') (rawBits 'B' (c + t)))) rs1
    Sum.inl { cnt := c + m, td := st.td + m, rs := rs2 }
  else Sum.inr st

/-- One iteration of the `while` loop of `analyze` (248-285).  The loop
condition is `count < num_frames` when a frame cap is set, and `!eof()`
otherwise (in which case only a throwing read terminates the loop, see the
module comment).  At a GOP boundary (`count % gop_size == 0`) the next frame
is read into slot 0 and an I record is emitted (`process_i_picture`,
`td = 0`); otherwise the anchor is swapped into slot 0.  Either way the
iteration continues with the read-ahead. -/
def analyzeIter (rawBits : Char → ℕ → ℕ) (n g s cap : ℕ)
    (st : AnalyzerState) : AnalyzerState ⊕ AnalyzerState :=
  if 0 < cap ∧ ¬ st.cnt < cap then Sum.inr st
  else if st.cnt % g = 0 then
    if st.cnt < n then
      let c := st.cnt
      let rs1 := add_info_enhanced st.rs (c + 1) 'I'
        (weightedBits (frameBitWeight 'I') (rawBits 'I' c))
      readAheadEmit rawBits n g s { cnt := c + 1, td := 0, rs := rs1 }
    else Sum.inr st
  else readAheadEmit rawBits n g s st

/-- Run the `analyze` loop for at most `fuel` iterations (`Sum.inr` is the
loop exit, by failed condition or by the caught `EOFException`). -/
def analyzeRun (rawBits : Char → ℕ → ℕ) (n g s cap : ℕ) :
    ℕ → AnalyzerState → AnalyzerState
  | 0, st => st
  | fuel + 1, st =>
    match analyzeIter rawBits n g s cap st with
    | Sum.inl st' => analyzeRun rawBits n g s cap fuel st'
    | Sum.inr st' => st'

/-- `ComplexityAnalyzer::analyze` over a source of `n` frames with
`gop_size = g`, `subgop_size = s` (`b_frames + 1`, ComplexityAnalyzer.cpp
23) and frame cap `cap` (`m_num_frames`; 0 means no cap): run the loop from
the freshly constructed analyzer state and flush the held record.  Every
loop iteration that continues advances `cnt`, so `n + cap + 2` iterations
always suffice to reach the exit for the configurations the claims range
over. -/
def analyze (rawBits : Char → ℕ → ℕ) (n g s cap : ℕ) : List PicRecord :=
  flushInfo (analyzeRun rawBits n g s cap (n + cap + 2)
    { cnt := 0, td := 0, rs := { info := [], pending := none } }).rs

/-! ## Auxiliary definitions for the proofs -/

/-- The P record emitted by the read-ahead step with pre-read count `c` and
`m` read frames. -/
def pRecord (rawBits : Char → ℕ → ℕ) (c m : ℕ) : PicRecord :=
  { picNum := c + m - 1, picType := 'P',
    bits := weightedBits (frameBitWeight 'P') (rawBits 'P' (c + m - 1)) }

/-- The B record for the slot holding display index `c + t`. -/
def bRecord (rawBits : Char → ℕ → ℕ) (c t : ℕ) : PicRecord :=
  { picNum := c + t, picType := 'B',
    bits := weightedBits (frameBitWeight 'B') (rawBits 'B' (c + t)) }

/-- The I record for display index `c`. -/
def iRecord (rawBits : Char → ℕ → ℕ) (c : ℕ) : PicRecord :=
  { picNum := c, picType := 'I',
    bits := weightedBits (frameBitWeight 'I') (rawBits 'I' c) }

/-- A record is one of the shapes `process_i_picture`, `process_p_picture`
or `process_b_picture` can hand to `add_info_enhanced`; B records arise only
when the subGOP has at least two slots. -/
def EmittedRecord (rb : Char → ℕ → ℕ) (s : ℕ) (x : PicRecord) : Prop :=
  (∃ c, x = iRecord rb c) ∨ (∃ c m, x = pRecord rb c m) ∨
  (2 ≤ s ∧ ∃ c t, x = bRecord rb c t)

/-- The ordering invariant of the `analyze` loop: the record list (with the
held record flushed behind it) has strictly increasing `picNum`, every
`picNum` is below the reader count, and away from the initial state the
intra-GOP counter satisfies `count ≡ td + 1 (mod gop_size)` with
`td + 1 ≤ gop_size`. -/
def OrderInv (g : ℕ) (st : AnalyzerState) : Prop :=
  (flushInfo st.rs).Pairwise (fun a b => a.picNum < b.picNum) ∧
  (∀ x ∈ flushInfo st.rs, x.picNum < st.cnt) ∧
  ((st.cnt = 0 ∧ st.td = 0) ∨
    (1 ≤ st.cnt ∧ st.td + 1 ≤ g ∧ st.cnt % g = (st.td + 1) % g))

/-- The picture type the scheduler assigns to display index `idx` in a run
with subGOP size `s` and a single GOP: I at index 0, P at positive multiples
of `s`, B elsewhere. -/
def dispType (s idx : ℕ) : Char :=
  if idx = 0 then 'I' else if idx % s = 0 then 'P' else 'B'

/-- The record `analyze` emits for display index `idx` in a single-GOP run. -/
def dispRecord (rb : Char → ℕ → ℕ) (s idx : ℕ) : PicRecord :=
  { picNum := idx, picType := dispType s idx,
    bits := weightedBits (frameBitWeight (dispType s idx))
      (rb (dispType s idx) idx) }

/-- The loop state of a single-GOP run whose held anchor has display index
`a` (a multiple of the subGOP size): `1 + a` frames consumed, records for
display indices `0 … a - 1` in `m_info` (in display order) and the record
for index `a` (the I record when `a = 0`, the subGOP's P record otherwise)
held in `m_pReorderedInfo`. -/
def subgopState (rb : Char → ℕ → ℕ) (s a : ℕ) : AnalyzerState :=
  { cnt := 1 + a, td := a,
    rs := { info := (List.range a).map (dispRecord rb s),
            pending := some (dispRecord rb s a) } }

/-! ## Theorems -/

/-- Routing one record through the reorder buffer permutes the eventual
output by exactly that record. -/
theorem flushInfo_route_perm (st : ReorderState) (r : PicRecord) :
    (flushInfo (route st r)).Perm (flushInfo st ++ [r]) := by
  unfold route flushInfo
  by_cases h : r.picType = 'I' ∨ r.picType = 'P'
  · simp [h, List.append_assoc]
  · simp only [h, if_false]
    simpa [List.append_assoc] using
      (List.Perm.append_left st.info
        (show ([r] ++ st.pending.toList).Perm (st.pending.toList ++ [r]) from
          List.perm_append_comm))

theorem flushInfo_foldl_route_perm (adds : List PicRecord) :
    ∀ st : ReorderState,
      (flushInfo (adds.foldl route st)).Perm (flushInfo st ++ adds) := by
  induction adds with
  | nil => intro st; simp
  | cons a as ih =>
    intro st
    have h1 := ih (route st a)
    have h2 : (flushInfo (route st a) ++ as).Perm (flushInfo st ++ a :: as) := by
      simpa [List.append_assoc] using (flushInfo_route_perm st a).append_right as
    simpa using h1.trans h2

/-- C9: the pending-record reorder buffer never loses or duplicates a
record.  For every sequence of records passed through the routing logic of
`add_info_enhanced`, starting from the freshly constructed analyzer (empty
`m_info`, null `m_pReorderedInfo`), the list obtained after the final flush
of `analyze` is a permutation of the sequence of records added: each call
contributes exactly one record, and the record still held at the end is
appended exactly once. -/
theorem route_flush_no_loss_no_dup (adds : List PicRecord) :
    (flushInfo (adds.foldl route { info := [], pending := none })).Perm adds := by
  simpa [flushInfo] using
    flushInfo_foldl_route_perm adds { info := [], pending := none }

/-- C10: `computeBitsPerPixel` returns 0 whenever `num_pixels ≤ 0`; the
division is guarded and unreachable in that case, so the bits-per-pixel of a
record is well defined even for a degenerate zero-pixel frame. -/
theorem computeBitsPerPixel_nonpos_eq_zero (estimated_bits num_pixels : ℤ)
    (h : num_pixels ≤ 0) : computeBitsPerPixel estimated_bits num_pixels = 0 := by
  unfold computeBitsPerPixel
  simp [h]

theorem computeBitsPerPixel_nonpos_eq_zero_witness :
    (0 : ℤ) ≤ 0 ∧ computeBitsPerPixel 7 0 = 0 :=
  ⟨le_refl 0, computeBitsPerPixel_nonpos_eq_zero 7 0 (le_refl 0)⟩

/-- C4: the bidirectional-MSE highway kernel does not compute
`pred = (ref1·td_y + ref2·td_x + 16384) >> 15` in exact integer arithmetic.
With the temporal-distance weights `td = (16384, 16384)` (equidistant
references) on a 16×1 block whose current and reference samples are all 255,
the exact interpolation predicts 255 and the sum of squares is 0, but the
16-bit lanes wrap (`255·16384 ≡ −16384 (mod 2¹⁶)`) and the kernel returns
1048576. -/
theorem fast_bidir_mse_highway_lane_overflow :
    fast_bidir_mse_highway 16384 16384
        [List.replicate 16 255] [List.replicate 16 255] [List.replicate 16 255]
      = 1048576 ∧
    bidir_mse_spec 16384 16384
        [List.replicate 16 255] [List.replicate 16 255] [List.replicate 16 255]
      = 0 ∧
    (1048576 : ℤ) ≠ 0 := by
  refine ⟨by decide, by decide, by decide⟩

/-- C7: the variance highway kernel does not satisfy
`variance = 0` on constant blocks at width 16, height 16.  On the 16×16
block whose samples are all 255 the pixel sum is 65280, `sum * sum`
overflows `int` (65280² wraps to −33488896 modulo 2³²), and the kernel
returns 16777215 instead of the 0 demanded by the exact reference formula
(and by the "equals 0 iff the block is constant" property). -/
theorem fast_variance16_highway_int_overflow :
    fast_variance16_highway (List.replicate 16 (List.replicate 16 255)) 16
      = 16777215 ∧
    variance_spec (List.replicate 16 (List.replicate 16 255)) 16 16 = 0 ∧
    (16777215 : ℤ) ≠ 0 := by
  refine ⟨by decide, by decide, by decide⟩

/-- C3: the GOP average-complexity field is not the arithmetic mean of
`unified_score_v2` over the member frames.  For the single I-frame record
below (a constant frame: zero bits, zero error, all normalized metrics and
hence `score_v2` equal to 0, 16 intra blocks on a 64×64 frame) the code's
`convertFrame` sets `unified_complexity = (1 + 0 + 0)/3` from the block-count
heuristics, so the GOP average is 1/3 while the mean of `score_v2` is 0. -/
theorem computeGOPData_avg_is_not_mean_score_v2 :
    (convertGops
        [{ picNum := 0, picType := 'I', count_I := 16, count_P := 0,
           count_B := 0, bits := 0, error := 0, unified_score_v2 := 0 }]
        64 64).map GOPData.avg_complexity = [1/3] ∧
    (([({ picNum := 0, picType := 'I', count_I := 16, count_P := 0,
           count_B := 0, bits := 0, error := 0, unified_score_v2 := 0 } :
         complexity_info)].map complexity_info.unified_score_v2).sum / 1 : ℚ)
      = 0 ∧
    (1/3 : ℚ) ≠ 0 := by
  refine ⟨?_, ?_, ?_⟩
  · norm_num [convertGops, computeGOPData, gopAux, mkGOP, convertFrame,
      charToFrameType]
  · norm_num
  · norm_num

/-! ### Computation lemmas for the analyzer loop -/

theorem foldl_route_eq (f : ℕ → PicRecord)
    (hf : ∀ t, ¬((f t).picType = 'I' ∨ (f t).picType = 'P')) :
    ∀ (l : List ℕ) (rs : ReorderState),
      l.foldl (fun rs t => route rs (f t)) rs =
        { info := rs.info ++ l.map f, pending := rs.pending } := by
  intro l
  induction l with
  | nil => intro rs; simp
  | cons a as ih =>
    intro rs
    have hr : route rs (f a) = { info := rs.info ++ [f a], pending := rs.pending } := by
      unfold route; simp [hf a]
    simp only [List.foldl_cons, hr, ih, List.map_cons]
    simp

theorem readAheadEmit_inl (rb : Char → ℕ → ℕ) (n g s : ℕ) (st : AnalyzerState)
    (m : ℕ) (hm : m = min (g - 1 - st.td) s) (hn : st.cnt + m ≤ n) :
    readAheadEmit rb n g s st =
      Sum.inl
        { cnt := st.cnt + m, td := st.td + m,
          rs := { info := flushInfo st.rs ++ (List.range (m - 1)).map (bRecord rb st.cnt),
                  pending := some (pRecord rb st.cnt m) } } := by
  subst hm
  unfold readAheadEmit
  rw [if_pos hn]
  have hB : ∀ t, ¬((bRecord rb st.cnt t).picType = 'I' ∨
      (bRecord rb st.cnt t).picType = 'P') := by
    intro t; simp [bRecord]
  have hfold := foldl_route_eq (bRecord rb st.cnt) hB
    (List.range (min (g - 1 - st.td) s - 1))
  simp only [add_info_enhanced, Nat.add_sub_cancel]
  have hroute : route st.rs (pRecord rb st.cnt (min (g - 1 - st.td) s)) =
      { info := flushInfo st.rs,
        pending := some (pRecord rb st.cnt (min (g - 1 - st.td) s)) } := by
    unfold route flushInfo pRecord; simp
  simp only [pRecord, bRecord, weightedBits] at hroute hfold ⊢
  rw [hroute, hfold]

theorem readAheadEmit_inr (rb : Char → ℕ → ℕ) (n g s : ℕ) (st : AnalyzerState)
    (hn : ¬ st.cnt + min (g - 1 - st.td) s ≤ n) :
    readAheadEmit rb n g s st = Sum.inr st := by
  unfold readAheadEmit
  rw [if_neg hn]

theorem analyzeIter_cap_exit (rb : Char → ℕ → ℕ) (n g s cap : ℕ)
    (st : AnalyzerState) (h : 0 < cap ∧ ¬ st.cnt < cap) :
    analyzeIter rb n g s cap st = Sum.inr st := by
  unfold analyzeIter
  rw [if_pos h]

theorem analyzeIter_gop_start (rb : Char → ℕ → ℕ) (n g s cap : ℕ)
    (st : AnalyzerState) (h1 : ¬(0 < cap ∧ ¬ st.cnt < cap))
    (h2 : st.cnt % g = 0) (h3 : st.cnt < n) :
    analyzeIter rb n g s cap st =
      readAheadEmit rb n g s
        { cnt := st.cnt + 1, td := 0, rs := route st.rs (iRecord rb st.cnt) } := by
  unfold analyzeIter
  rw [if_neg h1, if_pos h2, if_pos h3]
  simp only [add_info_enhanced, Nat.add_sub_cancel, iRecord]

theorem analyzeIter_gop_start_eof (rb : Char → ℕ → ℕ) (n g s cap : ℕ)
    (st : AnalyzerState) (h1 : ¬(0 < cap ∧ ¬ st.cnt < cap))
    (h2 : st.cnt % g = 0) (h3 : ¬ st.cnt < n) :
    analyzeIter rb n g s cap st = Sum.inr st := by
  unfold analyzeIter
  rw [if_neg h1, if_pos h2, if_neg h3]

theorem analyzeIter_mid_gop (rb : Char → ℕ → ℕ) (n g s cap : ℕ)
    (st : AnalyzerState) (h1 : ¬(0 < cap ∧ ¬ st.cnt < cap))
    (h2 : ¬ st.cnt % g = 0) :
    analyzeIter rb n g s cap st = readAheadEmit rb n g s st := by
  unfold analyzeIter
  rw [if_neg h1, if_neg h2]

/-! ### Provenance of the emitted records -/

theorem flushInfo_route_anchor (rs : ReorderState) (r : PicRecord)
    (hc : r.picType = 'I' ∨ r.picType = 'P') :
    flushInfo (route rs r) = flushInfo rs ++ [r] := by
  unfold flushInfo route
  rw [if_pos hc]
  simp

theorem flushInfo_route_bpic (rs : ReorderState) (r : PicRecord)
    (hc : ¬(r.picType = 'I' ∨ r.picType = 'P')) :
    flushInfo (route rs r) = rs.info ++ [r] ++ rs.pending.toList := by
  unfold flushInfo route
  rw [if_neg hc]

theorem mem_flushInfo_route {rs : ReorderState} {r x : PicRecord}
    (h : x ∈ flushInfo (route rs r)) : x ∈ flushInfo rs ∨ x = r := by
  by_cases hc : r.picType = 'I' ∨ r.picType = 'P'
  · rw [flushInfo_route_anchor rs r hc] at h
    rcases List.mem_append.mp h with h' | h'
    · exact Or.inl h'
    · exact Or.inr (by simpa using h')
  · rw [flushInfo_route_bpic rs r hc] at h
    rcases List.mem_append.mp h with h' | h'
    · rcases List.mem_append.mp h' with h'' | h''
      · exact Or.inl (List.mem_append.mpr (Or.inl h''))
      · exact Or.inr (by simpa using h'')
    · exact Or.inl (List.mem_append.mpr (Or.inr h'))

theorem mem_flushInfo_readAheadEmit (rb : Char → ℕ → ℕ) (n g s : ℕ)
    (st : AnalyzerState) (x : PicRecord)
    (h : x ∈ flushInfo (Sum.elim id id (readAheadEmit rb n g s st)).rs) :
    x ∈ flushInfo st.rs ∨ EmittedRecord rb s x := by
  by_cases hn : st.cnt + min (g - 1 - st.td) s ≤ n
  · rw [readAheadEmit_inl rb n g s st _ rfl hn] at h
    have h' : x ∈ (flushInfo st.rs ++
        (List.range (min (g - 1 - st.td) s - 1)).map (bRecord rb st.cnt)) ++
        [pRecord rb st.cnt (min (g - 1 - st.td) s)] := by
      simpa [flushInfo] using h
    rcases List.mem_append.mp h' with h'' | h''
    · rcases List.mem_append.mp h'' with h3 | h3
      · exact Or.inl h3
      · rcases List.mem_map.mp h3 with ⟨t, ht, rfl⟩
        have hms : min (g - 1 - st.td) s ≤ s := min_le_right _ _
        have ht' : t < min (g - 1 - st.td) s - 1 := List.mem_range.mp ht
        exact Or.inr (Or.inr (Or.inr ⟨by omega, st.cnt, t, rfl⟩))
    · exact Or.inr (Or.inr (Or.inl
        ⟨st.cnt, min (g - 1 - st.td) s, by simpa using h''⟩))
  · rw [readAheadEmit_inr rb n g s st hn] at h
    exact Or.inl h

theorem mem_flushInfo_analyzeIter (rb : Char → ℕ → ℕ) (n g s cap : ℕ)
    (st : AnalyzerState) (x : PicRecord)
    (h : x ∈ flushInfo (Sum.elim id id (analyzeIter rb n g s cap st)).rs) :
    x ∈ flushInfo st.rs ∨ EmittedRecord rb s x := by
  by_cases h1 : 0 < cap ∧ ¬ st.cnt < cap
  · rw [analyzeIter_cap_exit rb n g s cap st h1] at h
    exact Or.inl h
  by_cases h2 : st.cnt % g = 0
  · by_cases h3 : st.cnt < n
    · rw [analyzeIter_gop_start rb n g s cap st h1 h2 h3] at h
      rcases mem_flushInfo_readAheadEmit rb n g s _ x h with h' | h'
      · rcases mem_flushInfo_route h' with h'' | rfl
        · exact Or.inl h''
        · exact Or.inr (Or.inl ⟨st.cnt, rfl⟩)
      · exact Or.inr h'
    · rw [analyzeIter_gop_start_eof rb n g s cap st h1 h2 h3] at h
      exact Or.inl h
  · rw [analyzeIter_mid_gop rb n g s cap st h1 h2] at h
    exact mem_flushInfo_readAheadEmit rb n g s st x h

theorem mem_flushInfo_analyzeRun (rb : Char → ℕ → ℕ) (n g s cap : ℕ) :
    ∀ (fuel : ℕ) (st : AnalyzerState) (x : PicRecord),
      x ∈ flushInfo (analyzeRun rb n g s cap fuel st).rs →
      x ∈ flushInfo st.rs ∨ EmittedRecord rb s x := by
  intro fuel
  induction fuel with
  | zero => intro st x h; exact Or.inl h
  | succ fuel ih =>
    intro st x h
    unfold analyzeRun at h
    cases hIter : analyzeIter rb n g s cap st with
    | inl st' =>
      rw [hIter] at h
      rcases ih st' x h with h' | h'
      · have := mem_flushInfo_analyzeIter rb n g s cap st x (by rw [hIter]; exact h')
        exact this
      · exact Or.inr h'
    | inr st' =>
      rw [hIter] at h
      exact mem_flushInfo_analyzeIter rb n g s cap st x (by rw [hIter]; exact h)

theorem analyze_mem_emittedRecord (rb : Char → ℕ → ℕ) (n g s cap : ℕ)
    (x : PicRecord) (h : x ∈ analyze rb n g s cap) : EmittedRecord rb s x := by
  unfold analyze at h
  rcases mem_flushInfo_analyzeRun rb n g s cap _ _ x h with h' | h'
  · simp [flushInfo] at h'
  · exact h'

/-- C5: the bit proxy stored in every emitted record is the raw per-frame
bit sum weighted by picture type with rounding: `(bits·282 + 128) >> 8` for
I records, `(bits·269 + 128) >> 8` for P records and `(bits·256 + 128) >> 8`
for B records, where the raw sum is the oracle value for the record's
picture type and display index. -/
theorem analyze_bits_type_weighted (rb : Char → ℕ → ℕ) (n g s cap : ℕ)
    (r : PicRecord) (h : r ∈ analyze rb n g s cap) :
    r.bits = (frameBitWeight r.picType * rb r.picType r.picNum + 128) / 256 := by
  rcases analyze_mem_emittedRecord rb n g s cap r h with
    ⟨c, rfl⟩ | ⟨c, m, rfl⟩ | ⟨-, c, t, rfl⟩ <;>
    simp [iRecord, pRecord, bRecord, weightedBits]

theorem analyze_bits_type_weighted_witness :
    ({ picNum := 0, picType := 'I', bits := 1102 } : PicRecord) ∈
        analyze (fun _ _ => 1000) 1 2 1 0 ∧
    ({ picNum := 0, picType := 'I', bits := 1102 } : PicRecord).bits =
      (frameBitWeight 'I' * 1000 + 128) / 256 :=
  ⟨by decide, analyze_bits_type_weighted (fun _ _ => 1000) 1 2 1 0 _ (by decide)⟩

/-- C8: with `b_frames = 0` the subGOP size is 1
(`m_subGOP_size = b_frames + 1`), the bidirectional loop of `analyze` is
never entered, and no emitted record has picture type B. -/
theorem analyze_no_b_records_of_subgop_one (rb : Char → ℕ → ℕ) (n g cap : ℕ) :
    'B' ∉ (analyze rb n g 1 cap).map PicRecord.picType := by
  intro hmem
  rcases List.mem_map.1 hmem with ⟨r, hr, hty⟩
  rcases analyze_mem_emittedRecord rb n g 1 cap r hr with
    ⟨c, rfl⟩ | ⟨c, m, rfl⟩ | ⟨hs, -⟩
  · simp [iRecord] at hty
  · simp [pRecord] at hty
  · omega

/-! ### Display order of the emitted record list -/

theorem orderInv_readAheadEmit (rb : Char → ℕ → ℕ) (n g s : ℕ)
    (st : AnalyzerState)
    (hOrd : (flushInfo st.rs).Pairwise (fun a b => a.picNum < b.picNum))
    (hBd : ∀ x ∈ flushInfo st.rs, x.picNum < st.cnt)
    (hcnt : 1 ≤ st.cnt) (htd : st.td + 1 ≤ g)
    (hmod : st.cnt % g = (st.td + 1) % g)
    (hm : 1 ≤ min (g - 1 - st.td) s) :
    OrderInv g (Sum.elim id id (readAheadEmit rb n g s st)) := by
  by_cases hn : st.cnt + min (g - 1 - st.td) s ≤ n
  · rw [readAheadEmit_inl rb n g s st _ rfl hn]
    set m := min (g - 1 - st.td) s with hmdef
    set c := st.cnt with hcdef
    have hflush :
        flushInfo { info := flushInfo st.rs ++ (List.range (m - 1)).map (bRecord rb c),
                    pending := some (pRecord rb c m) } =
          (flushInfo st.rs ++ (List.range (m - 1)).map (bRecord rb c)) ++
            [pRecord rb c m] := by
      simp [flushInfo]
    simp only [Sum.elim_inl, id_eq]
    refine ⟨?_, ?_, ?_⟩
    · simp only [hflush]
      rw [List.pairwise_append]
      refine ⟨?_, by simp, ?_⟩
      · rw [List.pairwise_append]
        refine ⟨hOrd, ?_, ?_⟩
        · refine List.Pairwise.map _ ?_ (List.pairwise_lt_range (m - 1))
          intro a b hab
          simpa [bRecord] using Nat.add_lt_add_left hab c
        · intro a ha b hb
          rcases List.mem_map.mp hb with ⟨t, ht, rfl⟩
          have := hBd a ha
          simp only [bRecord]
          omega
      · intro a ha b hb
        rcases List.mem_singleton.mp hb with rfl
        rcases List.mem_append.mp ha with h' | h'
        · have := hBd a h'
          simp only [pRecord]
          omega
        · rcases List.mem_map.mp h' with ⟨t, ht, rfl⟩
          have ht' := List.mem_range.mp ht
          simp only [bRecord, pRecord]
          omega
    · simp only [hflush]
      intro x hx
      rcases List.mem_append.mp hx with h' | h'
      · rcases List.mem_append.mp h' with h'' | h''
        · have := hBd x h''
          omega
        · rcases List.mem_map.mp h'' with ⟨t, ht, rfl⟩
          have ht' := List.mem_range.mp ht
          simp only [bRecord]
          omega
      · rcases List.mem_singleton.mp h' with rfl
        simp only [pRecord]
        omega
    · dsimp only
      refine Or.inr ⟨by omega, ?_, ?_⟩
      · have := min_le_left (g - 1 - st.td) s
        omega
      · have harg : st.td + 1 + m = st.td + m + 1 := by omega
        calc (c + m) % g = (c % g + m % g) % g := Nat.add_mod c m g
          _ = ((st.td + 1) % g + m % g) % g := by rw [hmod]
          _ = (st.td + 1 + m) % g := (Nat.add_mod (st.td + 1) m g).symm
          _ = (st.td + m + 1) % g := by rw [harg]
  · rw [readAheadEmit_inr rb n g s st hn]
    exact ⟨hOrd, hBd, Or.inr ⟨hcnt, htd, hmod⟩⟩

theorem orderInv_analyzeIter (rb : Char → ℕ → ℕ) (n g s cap : ℕ)
    (hg : 2 ≤ g) (hs : 1 ≤ s) (st : AnalyzerState) (hInv : OrderInv g st) :
    OrderInv g (Sum.elim id id (analyzeIter rb n g s cap st)) := by
  obtain ⟨hOrd, hBd, hArith⟩ := hInv
  by_cases h1 : 0 < cap ∧ ¬ st.cnt < cap
  · rw [analyzeIter_cap_exit rb n g s cap st h1]
    exact ⟨hOrd, hBd, hArith⟩
  by_cases h2 : st.cnt % g = 0
  · by_cases h3 : st.cnt < n
    · rw [analyzeIter_gop_start rb n g s cap st h1 h2 h3]
      have hIa : (iRecord rb st.cnt).picType = 'I' ∨
          (iRecord rb st.cnt).picType = 'P' := Or.inl rfl
      have hfl := flushInfo_route_anchor st.rs (iRecord rb st.cnt) hIa
      refine orderInv_readAheadEmit rb n g s _ ?_ ?_ ?_ ?_ ?_ ?_
      · dsimp only
        rw [hfl, List.pairwise_append]
        refine ⟨hOrd, by simp, ?_⟩
        intro a ha b hb
        rcases List.mem_singleton.mp hb with rfl
        have := hBd a ha
        simpa [iRecord] using this
      · dsimp only
        rw [hfl]
        intro x hx
        rcases List.mem_append.mp hx with h' | h'
        · have := hBd x h'
          omega
        · rcases List.mem_singleton.mp h' with rfl
          simp [iRecord]
      · dsimp only; omega
      · dsimp only; omega
      · dsimp only
        rw [Nat.add_mod, h2]
        have h4 : (1 % g) % g = 1 % g := Nat.mod_mod_of_dvd 1 dvd_rfl
        simp only [Nat.zero_add] at h4 ⊢
        exact h4
      · dsimp only
        omega
    · rw [analyzeIter_gop_start_eof rb n g s cap st h1 h2 h3]
      exact ⟨hOrd, hBd, hArith⟩
  · rw [analyzeIter_mid_gop rb n g s cap st h1 h2]
    have hArith' : 1 ≤ st.cnt ∧ st.td + 1 ≤ g ∧ st.cnt % g = (st.td + 1) % g := by
      rcases hArith with ⟨hc0, -⟩ | h'
      · exact absurd (by simp [hc0]) h2
      · exact h'
    obtain ⟨hcnt, htd, hmod⟩ := hArith'
    have htd' : st.td + 1 < g := by
      rcases Nat.lt_or_ge (st.td + 1) g with h | h
      · exact h
      · have : st.td + 1 = g := le_antisymm htd h
        rw [this, Nat.mod_self] at hmod
        exact absurd hmod h2
    exact orderInv_readAheadEmit rb n g s st hOrd hBd hcnt htd hmod (by omega)

theorem orderInv_analyzeRun (rb : Char → ℕ → ℕ) (n g s cap : ℕ)
    (hg : 2 ≤ g) (hs : 1 ≤ s) :
    ∀ (fuel : ℕ) (st : AnalyzerState), OrderInv g st →
      OrderInv g (analyzeRun rb n g s cap fuel st) := by
  intro fuel
  induction fuel with
  | zero => intro st h; exact h
  | succ fuel ih =>
    intro st h
    unfold analyzeRun
    have hstep := orderInv_analyzeIter rb n g s cap hg hs st h
    cases hIter : analyzeIter rb n g s cap st with
    | inl st' =>
      rw [hIter] at hstep
      exact ih st' (by simpa using hstep)
    | inr st' =>
      rw [hIter] at hstep
      simpa using hstep

/-- C1 (amended): for `gop_size ≥ 2` (and any subGOP size, frame cap,
source length and bit oracle) the record list returned by `analyze` is in
display order: adjacent records have strictly increasing `picNum`, the
held-back I/P record always being flushed behind the intervening B records
and at end of sequence. -/
theorem analyze_display_order_of_two_le_gop (rb : Char → ℕ → ℕ)
    (n g s cap : ℕ) (hg : 2 ≤ g) (hs : 1 ≤ s) :
    List.Chain' (fun a b => a.picNum < b.picNum) (analyze rb n g s cap) := by
  have hInit : OrderInv g
      { cnt := 0, td := 0, rs := { info := [], pending := none } } := by
    refine ⟨by simp [flushInfo], by simp [flushInfo], Or.inl ⟨rfl, rfl⟩⟩
  have h := orderInv_analyzeRun rb n g s cap hg hs (n + cap + 2) _ hInit
  exact h.1.chain'

theorem analyze_display_order_witness :
    2 ≤ 2 ∧ 1 ≤ 1 ∧
      List.Chain' (fun a b => a.picNum < b.picNum)
        (analyze (fun _ _ => 0) 2 2 1 0) :=
  ⟨le_refl 2, le_refl 1,
    analyze_display_order_of_two_le_gop (fun _ _ => 0) 2 2 1 0
      (le_refl 2) (le_refl 1)⟩

/-- C1 (counterexample): with `gop_size = 1` — a configuration the analyzer
accepts (`main.cpp` only rejects `gop_size < 1`) — every picture is
processed both as an I picture and, because the read-ahead loop bound
`td < gop_size - 1` makes the loop empty, as a P picture against itself, so
the output contains two records with the same `picNum` and is not strictly
display-ordered. -/
theorem analyze_gop_size_one_not_display_ordered :
    (analyze (fun _ _ => 0) 1 1 1 0).map (fun r => (r.picNum, r.picType)) =
      [(0, 'I'), (0, 'P')] ∧
    ¬ List.Chain' (fun a b => a.picNum < b.picNum)
        (analyze (fun _ _ => 0) 1 1 1 0) := by
  constructor
  · decide
  · have hl : analyze (fun _ _ => 0) 1 1 1 0 =
        [{ picNum := 0, picType := 'I', bits := 0 },
         { picNum := 0, picType := 'P', bits := 0 }] := by decide
    rw [hl]
    simp [List.chain'_cons]

/-! ### Exact output of a single-GOP run up to end of stream -/

theorem analyzeRun_succ (rb : Char → ℕ → ℕ) (n g s cap fl : ℕ)
    (st : AnalyzerState) :
    analyzeRun rb n g s cap (fl + 1) st =
      match analyzeIter rb n g s cap st with
      | Sum.inl st' => analyzeRun rb n g s cap fl st'
      | Sum.inr st' => st' := rfl

theorem dispRecord_eq_bRecord (rb : Char → ℕ → ℕ) (s a t : ℕ)
    (ha : a % s = 0) (ht : t + 1 < s) :
    dispRecord rb s (a + (t + 1)) = bRecord rb (a + 1) t := by
  have h3 : a + (t + 1) = a + 1 + t := by omega
  rw [h3]
  have h1 : ¬ a + 1 + t = 0 := by omega
  have h2 : (a + 1 + t) % s = t + 1 := by
    rw [show a + 1 + t = a + (t + 1) by omega, Nat.add_mod, ha, Nat.zero_add,
      Nat.mod_mod_of_dvd _ dvd_rfl, Nat.mod_eq_of_lt ht]
  simp [dispRecord, dispType, bRecord, h1, h2]

theorem dispRecord_eq_pRecord (rb : Char → ℕ → ℕ) (s a : ℕ)
    (hs : 1 ≤ s) (ha : a % s = 0) :
    dispRecord rb s (a + s) = pRecord rb (a + 1) s := by
  have h1 : ¬ a + s = 0 := by omega
  have h2 : (a + s) % s = 0 := by
    rw [Nat.add_mod, ha, Nat.mod_self]
    simp
  have h3 : a + 1 + s - 1 = a + s := by omega
  simp [dispRecord, dispType, pRecord, h1, h2, h3]

theorem dispRecord_zero (rb : Char → ℕ → ℕ) (s : ℕ) :
    dispRecord rb s 0 = iRecord rb 0 := by
  simp [dispRecord, dispType, iRecord]

theorem range_map_dispRecord_step (rb : Char → ℕ → ℕ) (s a : ℕ)
    (hs : 1 ≤ s) (ha : a % s = 0) :
    (List.range (a + s)).map (dispRecord rb s) =
      ((List.range a).map (dispRecord rb s) ++ [dispRecord rb s a]) ++
        (List.range (s - 1)).map (bRecord rb (a + 1)) := by
  obtain ⟨s', rfl⟩ : ∃ s', s = s' + 1 := ⟨s - 1, by omega⟩
  rw [List.range_add, List.map_append, List.range_succ_eq_map]
  simp only [List.map_cons, List.map_map, List.append_assoc, List.singleton_append,
    Nat.add_zero]
  congr 1
  simp only [Nat.add_sub_cancel]
  congr 1
  apply List.map_congr_left
  intro t htmem
  have ht := List.mem_range.mp htmem
  exact dispRecord_eq_bRecord rb (s' + 1) a t ha (by omega)

theorem readAheadEmit_subgop_step (rb : Char → ℕ → ℕ) (n g s a : ℕ)
    (hs : 1 ≤ s) (ha : a % s = 0) (h1 : a + s + 1 ≤ n) (hg : n < g) :
    readAheadEmit rb n g s (subgopState rb s a) =
      Sum.inl (subgopState rb s (a + s)) := by
  have hm : s = min (g - 1 - (subgopState rb s a).td) s := by
    dsimp only [subgopState]
    omega
  have hn : (subgopState rb s a).cnt + s ≤ n := by
    dsimp only [subgopState]
    omega
  rw [readAheadEmit_inl rb n g s _ s hm hn]
  congr 1
  dsimp only [subgopState]
  rw [Nat.add_comm 1 a, range_map_dispRecord_step rb s a hs ha,
    dispRecord_eq_pRecord rb s a hs ha]
  simp only [AnalyzerState.mk.injEq, ReorderState.mk.injEq, flushInfo]
  and_intros <;> first | omega | simp

theorem readAheadEmit_subgop_end (rb : Char → ℕ → ℕ) (n g s a : ℕ)
    (_ha : a + 1 ≤ n) (h2 : n ≤ a + s) (hg : n < g) :
    readAheadEmit rb n g s (subgopState rb s a) =
      Sum.inr (subgopState rb s a) := by
  apply readAheadEmit_inr
  dsimp only [subgopState]
  omega

theorem analyzeIter_subgop_mid (rb : Char → ℕ → ℕ) (n g s a : ℕ)
    (h : a + 1 < g) :
    analyzeIter rb n g s 0 (subgopState rb s a) =
      readAheadEmit rb n g s (subgopState rb s a) := by
  apply analyzeIter_mid_gop
  · simp
  · dsimp only [subgopState]
    rw [Nat.mod_eq_of_lt (by omega)]
    omega

theorem analyzeIter_init_eq (rb : Char → ℕ → ℕ) (n g s : ℕ) (hn : 1 ≤ n) :
    analyzeIter rb n g s 0 { cnt := 0, td := 0, rs := { info := [], pending := none } } =
      readAheadEmit rb n g s (subgopState rb s 0) := by
  rw [analyzeIter_gop_start rb n g s 0
    { cnt := 0, td := 0, rs := { info := [], pending := none } }
    (by simp) (by simp) (by show 0 < n; omega)]
  congr 1

theorem analyzeRun_subgop_chain (rb : Char → ℕ → ℕ) (n g s : ℕ)
    (hg : n < g) (hs : 1 ≤ s) :
    ∀ (d a fl : ℕ), a % s = 0 → a + d * s + 1 ≤ n → n ≤ a + d * s + s →
      d + 1 ≤ fl →
      analyzeRun rb n g s 0 fl (subgopState rb s a) =
        subgopState rb s (a + d * s) := by
  intro d
  induction d with
  | zero =>
    intro a fl ha h1 h2 hfl
    rw [Nat.zero_mul] at h1 h2 ⊢
    obtain ⟨fl', rfl⟩ : ∃ fl', fl = fl' + 1 := ⟨fl - 1, by omega⟩
    have hiter : analyzeIter rb n g s 0 (subgopState rb s a) =
        Sum.inr (subgopState rb s a) := by
      rw [analyzeIter_subgop_mid rb n g s a (by omega)]
      exact readAheadEmit_subgop_end rb n g s a (by omega) (by omega) hg
    rw [analyzeRun_succ, hiter, Nat.add_zero]
  | succ d ih =>
    intro a fl ha h1 h2 hfl
    rw [Nat.succ_mul] at h1 h2 ⊢
    obtain ⟨fl', rfl⟩ : ∃ fl', fl = fl' + 1 := ⟨fl - 1, by omega⟩
    have hstep : analyzeIter rb n g s 0 (subgopState rb s a) =
        Sum.inl (subgopState rb s (a + s)) := by
      rw [analyzeIter_subgop_mid rb n g s a (by omega)]
      exact readAheadEmit_subgop_step rb n g s a hs ha (by omega) hg
    rw [analyzeRun_succ, hstep]
    have hgoal : a + (d * s + s) = (a + s) + d * s := by omega
    rw [hgoal]
    refine ih (a + s) fl' ?_ (by omega) (by omega) (by omega)
    rw [Nat.add_mod, ha, Nat.mod_self]
    simp

theorem analyzeRun_single_gop (rb : Char → ℕ → ℕ) (n g s : ℕ)
    (hn : 1 ≤ n) (hg : n < g) (hs : 1 ≤ s) :
    analyzeRun rb n g s 0 (n + 0 + 2)
        { cnt := 0, td := 0, rs := { info := [], pending := none } } =
      subgopState rb s ((n - 1) / s * s) := by
  have hdm := Nat.div_add_mod (n - 1) s
  have hr : (n - 1) % s < s := Nat.mod_lt _ (by omega)
  have hdle := Nat.div_le_self (n - 1) s
  rw [show n + 0 + 2 = (n + 1) + 1 by omega, analyzeRun_succ,
    analyzeIter_init_eq rb n g s hn]
  generalize hkgen : (n - 1) / s = k at hdm hdle ⊢
  by_cases hk : k = 0
  · rw [hk, Nat.zero_mul]
    rw [hk, Nat.mul_zero] at hdm
    have hend : n ≤ 0 + s := by omega
    have ha0 : (0 : ℕ) + 1 ≤ n := by omega
    rw [readAheadEmit_subgop_end rb n g s 0 ha0 hend hg]
  · obtain ⟨k', rfl⟩ : ∃ k', k = k' + 1 := ⟨k - 1, by omega⟩
    rw [Nat.mul_succ] at hdm
    have hsk : s ≤ s * k' + s := by omega
    have hstep : readAheadEmit rb n g s (subgopState rb s 0) =
        Sum.inl (subgopState rb s (0 + s)) :=
      readAheadEmit_subgop_step rb n g s 0 hs (Nat.zero_mod s) (by omega) hg
    rw [hstep]
    have hchain := analyzeRun_subgop_chain rb n g s hg hs k' (0 + s) (n + 1)
      (by simp)
      (by have hcm : k' * s = s * k' := Nat.mul_comm k' s
          omega)
      (by have hcm : k' * s = s * k' := Nat.mul_comm k' s
          omega)
      (by omega)
    show analyzeRun rb n g s 0 (n + 1) (subgopState rb s (0 + s)) =
      subgopState rb s ((k' + 1) * s)
    rw [hchain]
    congr 1
    have hcm : k' * s = s * k' := Nat.mul_comm k' s
    have hmul : (k' + 1) * s = k' * s + s := Nat.succ_mul k' s
    omega

/-- C2 (amended): with EOF-driven termination (`num_frames = 0`) and a
single GOP (`gop_size` greater than the source length `n`), the output of
`analyze` consists of exactly the records of the `(n-1)/s` complete subGOPs
in display order — display indices `0 … (n-1)/s·s` with an I record at 0, P
records at positive multiples of the subGOP size `s` and B records in
between.  In particular the `(n-1) mod s` frames read during the read-ahead
in which the source hit EOF are discarded: `analyze` terminates without
emitting any record for them (no shortened subGOP is processed), while all
records produced before, including the held-back one, are retained. -/
theorem analyze_eof_partial_subgop_discarded (rb : Char → ℕ → ℕ) (n g s : ℕ)
    (hn : 1 ≤ n) (hg : n < g) (hs : 1 ≤ s) :
    (analyze rb n g s 0).map (fun r => (r.picNum, r.picType)) =
      (List.range ((n - 1) / s * s + 1)).map
        (fun idx => (idx, if idx = 0 then 'I' else if idx % s = 0 then 'P' else 'B')) := by
  unfold analyze
  rw [analyzeRun_single_gop rb n g s hn hg hs]
  dsimp only [subgopState, flushInfo]
  have h1 : (List.range ((n - 1) / s * s)).map (dispRecord rb s) ++
      [dispRecord rb s ((n - 1) / s * s)] =
      (List.range ((n - 1) / s * s + 1)).map (dispRecord rb s) := by
    rw [List.range_succ ((n - 1) / s * s)]
    simp
  simp only [Option.toList_some]
  rw [h1, List.map_map]
  apply List.map_congr_left
  intro idx _
  simp [dispRecord, dispType, Function.comp]

theorem analyze_eof_partial_subgop_discarded_witness :
    1 ≤ 4 ∧ 4 < 150 ∧ 1 ≤ 2 ∧
      (analyze (fun _ _ => 0) 4 150 2 0).map (fun r => (r.picNum, r.picType)) =
        (List.range ((4 - 1) / 2 * 2 + 1)).map
          (fun idx => (idx, if idx = 0 then 'I' else if idx % 2 = 0 then 'P' else 'B')) :=
  ⟨by decide, by decide, by decide,
    analyze_eof_partial_subgop_discarded (fun _ _ => 0) 4 150 2
      (by decide) (by decide) (by decide)⟩

/-- C2 (counterexample): a two-frame source with `gop_size = 150` and
`b_frames = 1` (subGOP size 2).  Frame 1 is read successfully during the
read-ahead, then the read into the last subGOP slot throws `EOFException`,
which aborts the whole loop: no P record is emitted for frame 1, and the
output holds only the I record for frame 0 — the already-read frame of the
partial subGOP is dropped, contradicting the claim that the subGOP is
shortened and a P record still emitted. -/
theorem analyze_eof_drops_read_frame :
    (analyze (fun _ _ => 0) 2 150 2 0).map (fun r => (r.picNum, r.picType)) =
      [(0, 'I')] ∧
    ∀ r ∈ analyze (fun _ _ => 0) 2 150 2 0, r.picNum ≠ 1 := by
  refine ⟨by decide, by decide⟩

/-! ### The GOP segmentation of `computeGOPData` -/

theorem getD_eq_getElem_of_lt {α : Type} [Inhabited α] (l : List α) (n : ℕ)
    (h : n < l.length) : l.getD n default = l[n] := by
  rw [List.getD_eq_getElem?_getD, List.getElem?_eq_getElem h]
  rfl

theorem drop_take_tail {α : Type} (l : List α) (s m : ℕ) :
    ((l.drop s).take m).tail = (l.drop (s + 1)).take (m - 1) := by
  rw [← List.tail_drop]
  cases hx : l.drop s with
  | nil => simp
  | cons a as =>
    cases m with
    | zero => simp
    | succ m' => simp

theorem mem_drop_take_getD (l : List FrameData) (s m : ℕ) (f : FrameData)
    (h : f ∈ (l.drop s).take m) :
    ∃ j, j < m ∧ s + j < l.length ∧ l.getD (s + j) default = f := by
  rcases List.mem_iff_getElem.mp h with ⟨j, hj, hf⟩
  have hj' : j < m ∧ j < l.length - s := by
    have h2 := hj
    simp only [List.length_take, List.length_drop] at h2
    omega
  refine ⟨j, hj'.1, by omega, ?_⟩
  rw [getD_eq_getElem_of_lt _ _ (by omega)]
  rw [← hf, List.getElem_take, List.getElem_drop]

theorem seg_length_eq (all : List FrameData) (s e : ℕ) (hse : s < e)
    (hel : e ≤ all.length) :
    ((all.drop s).take (e - s)).length = e - s := by
  simp only [List.length_take, List.length_drop]
  omega

theorem seg_ne_nil (all : List FrameData) (s e : ℕ) (hse : s < e)
    (hel : e ≤ all.length) : (all.drop s).take (e - s) ≠ [] := by
  intro hnil
  have h := seg_length_eq all s e hse hel
  rw [hnil] at h
  simp at h
  omega

theorem seg_getD_zero (all : List FrameData) (s e : ℕ) (hse : s < e)
    (hel : e ≤ all.length) :
    ((all.drop s).take (e - s)).getD 0 default = all.getD s default := by
  have h0 : 0 < ((all.drop s).take (e - s)).length := by
    rw [seg_length_eq all s e hse hel]
    omega
  rw [getD_eq_getElem_of_lt _ _ h0,
    getD_eq_getElem_of_lt _ _ (show s < all.length by omega),
    List.getElem_take, List.getElem_drop]
  simp

theorem seg_getD_last (all : List FrameData) (s e : ℕ) (hse : s < e)
    (hel : e ≤ all.length) :
    ((all.drop s).take (e - s)).getD
        (((all.drop s).take (e - s)).length - 1) default =
      all.getD (e - 1) default := by
  have hlen := seg_length_eq all s e hse hel
  have h0 : ((all.drop s).take (e - s)).length - 1 <
      ((all.drop s).take (e - s)).length := by omega
  rw [getD_eq_getElem_of_lt _ _ h0,
    getD_eq_getElem_of_lt _ _ (show e - 1 < all.length by omega),
    List.getElem_take, List.getElem_drop]
  congr 1
  omega

theorem mkGOP_props (all : List FrameData) (s e : ℕ) (num : ℤ)
    (hse : s < e) (hel : e ≤ all.length)
    (hnoI : ∀ j, s < j → j < e → (all.getD j default).type ≠ FrameType.I) :
    (mkGOP all s e num).frames ≠ [] ∧
    (mkGOP all s e num).start_frame =
      ((mkGOP all s e num).frames.getD 0 default).frame_num ∧
    (mkGOP all s e num).end_frame =
      ((mkGOP all s e num).frames.getD
        ((mkGOP all s e num).frames.length - 1) default).frame_num ∧
    (∀ f ∈ (mkGOP all s e num).frames.tail, f.type ≠ FrameType.I) := by
  have hfr : (mkGOP all s e num).frames = (all.drop s).take (e - s) := rfl
  have hstart : (mkGOP all s e num).start_frame =
      (all.getD s default).frame_num := rfl
  have hend : (mkGOP all s e num).end_frame =
      (all.getD (e - 1) default).frame_num := rfl
  refine ⟨?_, ?_, ?_, ?_⟩
  · rw [hfr]
    exact seg_ne_nil all s e hse hel
  · rw [hfr, hstart, seg_getD_zero all s e hse hel]
  · rw [hfr, hend, seg_getD_last all s e hse hel]
  · rw [hfr]
    intro f hf
    rw [drop_take_tail] at hf
    rcases mem_drop_take_getD all (s + 1) (e - s - 1) f hf with ⟨j, hj, hlt, heq⟩
    rw [← heq]
    exact hnoI (s + 1 + j) (by omega) (by omega)

theorem mkGOP_head_getD (all : List FrameData) (s e : ℕ) (num : ℤ)
    (hse : s < e) (hel : e ≤ all.length) :
    (mkGOP all s e num).frames.getD 0 default = all.getD s default := by
  have hfr : (mkGOP all s e num).frames = (all.drop s).take (e - s) := rfl
  rw [hfr, seg_getD_zero all s e hse hel]

theorem tail_append_singleton_headI (acc : List GOPData) (g : GOPData)
    (haccH : ∀ gd ∈ acc.tail, (gd.frames.getD 0 default).type = FrameType.I)
    (hg : acc ≠ [] → (g.frames.getD 0 default).type = FrameType.I) :
    ∀ gd ∈ (acc ++ [g]).tail, (gd.frames.getD 0 default).type = FrameType.I := by
  cases acc with
  | nil => simp
  | cons a as =>
    intro gd hgd
    simp only [List.cons_append, List.tail_cons] at hgd
    rcases List.mem_append.mp hgd with h | h
    · exact haccH gd (by simpa using h)
    · rcases List.mem_singleton.mp h with rfl
      exact hg (by simp)

theorem flatten_append_gop (all : List FrameData) (acc : List GOPData)
    (cs e : ℕ) (num : ℤ) (hcs : cs ≤ e) (_hel : e ≤ all.length)
    (hjoin : (acc.map GOPData.frames).flatten = all.take cs) :
    ((acc ++ [mkGOP all cs e num]).map GOPData.frames).flatten = all.take e := by
  rw [List.map_append, List.flatten_append, hjoin]
  have hfr : (mkGOP all cs e num).frames = (all.drop cs).take (e - cs) := rfl
  simp only [List.map_cons, List.map_nil, hfr, List.flatten_cons,
    List.flatten_nil, List.append_nil]
  have h1 := (List.take_add all cs (e - cs)).symm
  rw [h1, show cs + (e - cs) = e by omega]

theorem map_gop_num_append (acc : List GOPData) (g : GOPData) (num : ℤ)
    (hnum : num = acc.length) (hg : g.gop_num = num)
    (hgnum : acc.map GOPData.gop_num = (List.range acc.length).map Int.ofNat) :
    (acc ++ [g]).map GOPData.gop_num =
      (List.range (acc ++ [g]).length).map Int.ofNat := by
  rw [List.map_append, hgnum, List.length_append]
  simp only [List.length_singleton]
  rw [List.range_succ acc.length, List.map_append]
  congr 1
  simp [hg, hnum]

theorem gopAux_spec (all : List FrameData) (h0 : all ≠ []) :
    ∀ (rest : List FrameData) (i curStart : ℕ) (num : ℤ) (acc : List GOPData),
      rest = all.drop i →
      i ≤ all.length →
      (curStart < i ∨ (curStart = 0 ∧ i = 0)) →
      (∀ j, curStart < j → j < i → (all.getD j default).type ≠ FrameType.I) →
      (0 < curStart → (all.getD curStart default).type = FrameType.I) →
      ((acc.map GOPData.frames).flatten = all.take curStart) →
      (∀ gd ∈ acc, gd.frames ≠ [] ∧
         gd.start_frame = (gd.frames.getD 0 default).frame_num ∧
         gd.end_frame = (gd.frames.getD (gd.frames.length - 1) default).frame_num ∧
         ∀ f ∈ gd.frames.tail, f.type ≠ FrameType.I) →
      (∀ gd ∈ acc.tail, (gd.frames.getD 0 default).type = FrameType.I) →
      (acc ≠ [] → 0 < curStart) →
      (num = acc.length) →
      (acc.map GOPData.gop_num = (List.range acc.length).map Int.ofNat) →
      (((gopAux all rest i curStart num acc).map GOPData.frames).flatten = all ∧
       (∀ gd ∈ gopAux all rest i curStart num acc, gd.frames ≠ [] ∧
          gd.start_frame = (gd.frames.getD 0 default).frame_num ∧
          gd.end_frame = (gd.frames.getD (gd.frames.length - 1) default).frame_num ∧
          ∀ f ∈ gd.frames.tail, f.type ≠ FrameType.I) ∧
       (∀ gd ∈ (gopAux all rest i curStart num acc).tail,
          (gd.frames.getD 0 default).type = FrameType.I) ∧
       (gopAux all rest i curStart num acc).map GOPData.gop_num =
         (List.range (gopAux all rest i curStart num acc).length).map Int.ofNat) := by
  intro rest
  induction rest with
  | nil =>
    intro i curStart num acc hrest hi hcs hnoI hheadI hjoin haccP haccH haccNe
      hnum hgnum
    have hieq : i = all.length := by
      have h1 : all.length ≤ i := by
        by_contra h
        have h2 : all.drop i ≠ [] := by
          intro hdrop
          have := List.length_drop i all
          rw [hdrop] at this
          simp at this
          omega
        exact h2 hrest.symm
      omega
    have hcsl : curStart < all.length := by
      rcases hcs with h | ⟨h1, h2⟩
      · omega
      · have := List.length_pos.mpr h0
        omega
    have hEq : gopAux all [] i curStart num acc =
        acc ++ [mkGOP all curStart all.length num] := rfl
    rw [hEq]
    have hprops := mkGOP_props all curStart all.length num hcsl (le_refl _)
      (fun j hj1 hj2 => hnoI j hj1 (by omega))
    refine ⟨?_, ?_, ?_, ?_⟩
    · have := flatten_append_gop all acc curStart all.length num
        (by omega) (le_refl _) hjoin
      rw [this, List.take_length]
    · intro gd hgd
      rcases List.mem_append.mp hgd with h | h
      · exact haccP gd h
      · rcases List.mem_singleton.mp h with rfl
        exact hprops
    · refine tail_append_singleton_headI acc _ haccH ?_
      intro hne
      rw [mkGOP_head_getD all curStart all.length num hcsl (le_refl _)]
      exact hheadI (haccNe hne)
    · exact map_gop_num_append acc _ num hnum rfl hgnum
  | cons f rs ih =>
    intro i curStart num acc hrest hi hcs hnoI hheadI hjoin haccP haccH haccNe
      hnum hgnum
    have hil : i < all.length := by
      by_contra h
      have h2 : all.drop i = [] := List.drop_eq_nil_of_le (by omega)
      rw [h2] at hrest
      exact absurd hrest (by simp)
    have hd := List.drop_eq_getElem_cons hil
    rw [hd] at hrest
    have hfi : f = all[i] := (List.cons.injEq .. ▸ hrest).1
    have hrs : rs = all.drop (i + 1) := (List.cons.injEq .. ▸ hrest).2
    have hgetDi : all.getD i default = f := by
      rw [getD_eq_getElem_of_lt all i hil, hfi]
    have hEq : gopAux all (f :: rs) i curStart num acc =
        if f.type = FrameType.I ∧ 0 < i then
          gopAux all rs (i + 1) i (num + 1) (acc ++ [mkGOP all curStart i num])
        else gopAux all rs (i + 1) curStart num acc := rfl
    rw [hEq]
    by_cases hcond : f.type = FrameType.I ∧ 0 < i
    · rw [if_pos hcond]
      have hcsi : curStart < i := by
        rcases hcs with h | ⟨h1, h2⟩
        · exact h
        · omega
      have hprops := mkGOP_props all curStart i num hcsi (le_of_lt hil)
        (fun j hj1 hj2 => hnoI j hj1 hj2)
      refine ih (i + 1) i (num + 1) (acc ++ [mkGOP all curStart i num])
        hrs (by omega) (Or.inl (by omega)) ?_ ?_ ?_ ?_ ?_ ?_ ?_ ?_
      · intro j hj1 hj2
        omega
      · intro _
        rw [hgetDi]
        exact hcond.1
      · exact flatten_append_gop all acc curStart i num (by omega)
          (le_of_lt hil) hjoin
      · intro gd hgd
        rcases List.mem_append.mp hgd with h | h
        · exact haccP gd h
        · rcases List.mem_singleton.mp h with rfl
          exact hprops
      · refine tail_append_singleton_headI acc _ haccH ?_
        intro hne
        rw [mkGOP_head_getD all curStart i num hcsi (le_of_lt hil)]
        exact hheadI (haccNe hne)
      · intro _
        exact hcond.2
      · rw [List.length_append]
        simp only [List.length_singleton]
        push_cast
        omega
      · exact map_gop_num_append acc _ num hnum rfl hgnum
    · rw [if_neg hcond]
      refine ih (i + 1) curStart num acc hrs (by omega) (Or.inl (by omega))
        ?_ hheadI hjoin haccP haccH haccNe hnum hgnum
      intro j hj1 hj2
      rcases Nat.lt_or_ge j i with h | h
      · exact hnoI j hj1 h
      · have hji : j = i := by omega
        rw [hji, hgetDi]
        intro hft
        exact hcond ⟨hft, by omega⟩

/-- C6: the GOP segmentation of `computeGOPData`.  The produced GOP list
partitions the display-ordered record list into consecutive segments; every
GOP after the first begins at an I-record and no GOP contains an I-record
past its first member (so a GOP begins at each I-record and ends immediately
before the next I-record or at end of list); each GOP's `start_frame` and
`end_frame` are the frame numbers of its first and last member; and
`gop_num` equals the GOP's position in the list, hence is strictly
increasing. -/
theorem computeGOPData_partitions (frames : List FrameData) :
    ((computeGOPData frames).map GOPData.frames).flatten = frames ∧
    (∀ gd ∈ computeGOPData frames, gd.frames ≠ [] ∧
       gd.start_frame = (gd.frames.getD 0 default).frame_num ∧
       gd.end_frame = (gd.frames.getD (gd.frames.length - 1) default).frame_num ∧
       ∀ f ∈ gd.frames.tail, f.type ≠ FrameType.I) ∧
    (∀ gd ∈ (computeGOPData frames).tail,
       (gd.frames.getD 0 default).type = FrameType.I) ∧
    (computeGOPData frames).map GOPData.gop_num =
      (List.range (computeGOPData frames).length).map Int.ofNat := by
  by_cases h : frames = []
  · subst h
    simp [computeGOPData]
  · unfold computeGOPData
    rw [if_neg h]
    exact gopAux_spec frames h frames 0 0 0 []
      (by simp) (by simp) (Or.inr ⟨rfl, rfl⟩)
      (by intro j h1 h2; omega)
      (by intro h1; exact absurd h1 (by omega))
      (by simp) (by simp) (by simp)
      (by intro h1; exact absurd rfl h1)
      (by simp) (by simp)

theorem computeGOPData_partitions_witness :
    ((computeGOPData
        [{ frame_num := 0, type := FrameType.I, estimated_bits := 10,
           unified_complexity := 0 },
         { frame_num := 1, type := FrameType.B, estimated_bits := 20,
           unified_complexity := 0 },
         { frame_num := 2, type := FrameType.P, estimated_bits := 30,
           unified_complexity := 0 },
         { frame_num := 3, type := FrameType.I, estimated_bits := 40,
           unified_complexity := 0 }]).map GOPData.frames).flatten =
      [{ frame_num := 0, type := FrameType.I, estimated_bits := 10,
         unified_complexity := 0 },
       { frame_num := 1, type := FrameType.B, estimated_bits := 20,
         unified_complexity := 0 },
       { frame_num := 2, type := FrameType.P, estimated_bits := 30,
         unified_complexity := 0 },
       { frame_num := 3, type := FrameType.I, estimated_bits := 40,
         unified_complexity := 0 }] ∧
    (computeGOPData
        [{ frame_num := 0, type := FrameType.I, estimated_bits := 10,
           unified_complexity := 0 },
         { frame_num := 1, type := FrameType.B, estimated_bits := 20,
           unified_complexity := 0 },
         { frame_num := 2, type := FrameType.P, estimated_bits := 30,
           unified_complexity := 0 },
         { frame_num := 3, type := FrameType.I, estimated_bits := 40,
           unified_complexity := 0 }]).map GOPData.gop_num =
      (List.range (computeGOPData
        [{ frame_num := 0, type := FrameType.I, estimated_bits := 10,
           unified_complexity := 0 },
         { frame_num := 1, type := FrameType.B, estimated_bits := 20,
           unified_complexity := 0 },
         { frame_num := 2, type := FrameType.P, estimated_bits := 30,
           unified_complexity := 0 },
         { frame_num := 3, type := FrameType.I, estimated_bits := 40,
           unified_complexity := 0 }]).length).map Int.ofNat :=
  ⟨(computeGOPData_partitions _).1, (computeGOPData_partitions _).2.2.2⟩

end MotionSearch
